import Mathlib

/-!
Verification development for the epok reconciliation engine.

The definitions below are a shallow embedding of the Rust sources:
`src/res/*.rs` (resource model), `src/state.rs` (state set and ops),
`src/operator.rs` (rule planner and reconciler), `src/batch.rs` (command
batcher), `src/debounce.rs` (debouncing stream adapter),
`src/res/external_ports.rs` (annotation grammar) and `src/iptables.rs`
(NAT backend).  Rust `BTreeSet`s are embedded as canonically sorted
duplicate-free lists under an explicit comparison function mirroring the
derived `Ord` instances (variant order first, then field-by-field
lexicographic comparison).  The external `sha256::digest` collaborator is
a parameter `digest : String → String` of every definition that hashes.
-/

namespace Epok

/-! ## Ordering helpers mirroring Rust derived `Ord` -/

/-- Comparison from a linear order, mirroring Rust `Ord::cmp` for primitive
types (`u16`/`usize` as `Nat`, `bool` with `false < true`, `String`
byte-lexicographically). -/
def lcmp {α : Type} [LinearOrder α] (a b : α) : Ordering :=
  if a < b then .lt else if a = b then .eq else .gt

theorem lcmp_eq_iff {α : Type} [LinearOrder α] (a b : α) :
    lcmp a b = .eq ↔ a = b := by
  unfold lcmp
  rcases lt_trichotomy a b with h | h | h
  · simp [h, ne_of_lt h]
  · simp [h]
  · simp [not_lt_of_gt h, ne_of_gt h]

theorem lcmp_swap {α : Type} [LinearOrder α] (a b : α) :
    lcmp a b = (lcmp b a).swap := by
  unfold lcmp
  rcases lt_trichotomy a b with h | h | h
  · simp [h, not_lt_of_gt h, ne_of_gt h, Ordering.swap]
  · simp [h, Ordering.swap]
  · simp [h, not_lt_of_gt h, ne_of_gt h, ne_of_lt h, Ordering.swap]

theorem then_eq_iff (o p : Ordering) :
    o.then p = .eq ↔ o = .eq ∧ p = .eq := by
  cases o <;> simp [Ordering.then]

theorem then_swap (o p : Ordering) :
    (o.then p).swap = o.swap.then p.swap := by
  cases o <;> rfl

/-- Comparison on `Bool`, mirroring Rust `Ord` (`false < true`). -/
def cmpBool : Bool → Bool → Ordering
  | false, false => .eq
  | false, true => .lt
  | true, false => .gt
  | true, true => .eq

theorem cmpBool_eq_iff (a b : Bool) : cmpBool a b = .eq ↔ a = b := by
  cases a <;> cases b <;> simp [cmpBool]

theorem cmpBool_swap (a b : Bool) : cmpBool a b = (cmpBool b a).swap := by
  cases a <;> cases b <;> rfl

/-- Comparison on `Char` by code point, mirroring Rust byte comparison of
UTF-8 text (UTF-8 preserves code-point order). -/
def cmpChar (a b : Char) : Ordering := lcmp a.toNat b.toNat

theorem cmpChar_eq_iff (a b : Char) : cmpChar a b = .eq ↔ a = b := by
  rw [cmpChar, lcmp_eq_iff]
  constructor
  · intro h
    have hv : a.val.toNat = b.val.toNat := by simpa [Char.toNat] using h
    exact Char.eq_of_val_eq (UInt32.ext hv)
  · intro h
    rw [h]

theorem cmpChar_swap (a b : Char) : cmpChar a b = (cmpChar b a).swap :=
  lcmp_swap _ _

/-- Comparison on `Option`, mirroring Rust's derived `Ord` for `Option`
(`None < Some _`). -/
def cmpOpt {α : Type} (c : α → α → Ordering) : Option α → Option α → Ordering
  | none, none => .eq
  | none, some _ => .lt
  | some _, none => .gt
  | some a, some b => c a b

theorem cmpOpt_eq_iff {α : Type} (c : α → α → Ordering)
    (hc : ∀ a b, c a b = .eq ↔ a = b) (x y : Option α) :
    cmpOpt c x y = .eq ↔ x = y := by
  cases x <;> cases y <;> simp [cmpOpt, hc]

theorem cmpOpt_swap {α : Type} (c : α → α → Ordering)
    (hc : ∀ a b, c a b = (c b a).swap) (x y : Option α) :
    cmpOpt c x y = (cmpOpt c y x).swap := by
  cases x <;> cases y <;> simp [cmpOpt, Ordering.swap]
  exact hc _ _

/-- Comparison on lists, mirroring Rust's derived `Ord` for `Vec`
(element-wise lexicographic, a strict prefix is smaller). -/
def cmpList {α : Type} (c : α → α → Ordering) : List α → List α → Ordering
  | [], [] => .eq
  | [], _ :: _ => .lt
  | _ :: _, [] => .gt
  | a :: as, b :: bs => (c a b).then (cmpList c as bs)

theorem cmpList_eq_iff {α : Type} (c : α → α → Ordering)
    (hc : ∀ a b, c a b = .eq ↔ a = b) :
    ∀ x y : List α, cmpList c x y = .eq ↔ x = y := by
  intro x
  induction x with
  | nil => intro y; cases y <;> simp [cmpList]
  | cons a as ih =>
    intro y
    cases y with
    | nil => simp [cmpList]
    | cons b bs => simp [cmpList, then_eq_iff, hc, ih]

theorem cmpList_swap {α : Type} (c : α → α → Ordering)
    (hc : ∀ a b, c a b = (c b a).swap) :
    ∀ x y : List α, cmpList c x y = (cmpList c y x).swap := by
  intro x
  induction x with
  | nil => intro y; cases y <;> simp [cmpList, Ordering.swap]
  | cons a as ih =>
    intro y
    cases y with
    | nil => simp [cmpList, Ordering.swap]
    | cons b bs =>
      simp only [cmpList, then_swap, ih bs]
      rw [hc a b]

/-- Comparison on `String`, mirroring Rust's byte-lexicographic `Ord`. -/
def cmpStr (a b : String) : Ordering := cmpList cmpChar a.toList b.toList

theorem cmpStr_eq_iff (a b : String) : cmpStr a b = .eq ↔ a = b := by
  rw [cmpStr, cmpList_eq_iff cmpChar cmpChar_eq_iff]
  constructor
  · intro h
    cases a; cases b
    exact congrArg String.mk (by simpa [String.toList] using h)
  · intro h
    rw [h]

theorem cmpStr_swap (a b : String) : cmpStr a b = (cmpStr b a).swap :=
  cmpList_swap cmpChar cmpChar_swap _ _

/-! ## Resource model (`src/res/*.rs`) -/

/-- `Proto` from `src/res/external_ports.rs`. -/
inductive Proto : Type
  | tcp
  | udp
deriving DecidableEq, Repr

/-- `PortSpec` from `src/res/external_ports.rs`:
`{host_port, dest_port, proto}`. -/
structure PortSpec : Type where
  host_port : Nat
  dest_port : Nat
  proto : Proto
deriving DecidableEq, Repr

/-- `ExternalPorts` from `src/res/external_ports.rs`. -/
structure ExternalPorts : Type where
  specs : List PortSpec
deriving DecidableEq, Repr

/-- `Interface` from `src/res/interface.rs`. -/
structure Interface : Type where
  name : String
  is_external : Bool
deriving DecidableEq, Repr

/-- `Node` from `src/res/node.rs`. -/
structure Node : Type where
  name : String
  addr : String
  is_active : Bool
deriving DecidableEq, Repr

/-- `Service` from `src/res/service.rs`. -/
structure Service : Type where
  name : String
  namespc : String
  external_ports : ExternalPorts
  is_internal : Bool
  allow_range : Option String
deriving DecidableEq, Repr

/-- `Pod` from `src/res/pod.rs`. -/
structure Pod : Type where
  name : String
  namespc : String
  addr : String
  external_ports : ExternalPorts
  is_internal : Bool
  is_external : Bool
  is_ready : Bool
deriving DecidableEq, Repr

/-- The `Resource` sum from `src/res/mod.rs` (variant declaration order
`Interface, Node, Service, Pod`). -/
inductive Resource : Type
  | interface (i : Interface)
  | node (n : Node)
  | service (s : Service)
  | pod (p : Pod)
deriving DecidableEq, Repr

def cmpProto : Proto → Proto → Ordering
  | .tcp, .tcp => .eq
  | .tcp, .udp => .lt
  | .udp, .tcp => .gt
  | .udp, .udp => .eq

def cmpPortSpec (a b : PortSpec) : Ordering :=
  (lcmp a.host_port b.host_port).then
    ((lcmp a.dest_port b.dest_port).then (cmpProto a.proto b.proto))

def cmpExternalPorts (a b : ExternalPorts) : Ordering :=
  cmpList cmpPortSpec a.specs b.specs

def cmpInterface (a b : Interface) : Ordering :=
  (cmpStr a.name b.name).then (cmpBool a.is_external b.is_external)

def cmpNode (a b : Node) : Ordering :=
  (cmpStr a.name b.name).then
    ((cmpStr a.addr b.addr).then (cmpBool a.is_active b.is_active))

def cmpService (a b : Service) : Ordering :=
  (cmpStr a.name b.name).then
    ((cmpStr a.namespc b.namespc).then
      ((cmpExternalPorts a.external_ports b.external_ports).then
        ((cmpBool a.is_internal b.is_internal).then
          (cmpOpt cmpStr a.allow_range b.allow_range))))

def cmpPod (a b : Pod) : Ordering :=
  (cmpStr a.name b.name).then
    ((cmpStr a.namespc b.namespc).then
      ((cmpStr a.addr b.addr).then
        ((cmpExternalPorts a.external_ports b.external_ports).then
          ((cmpBool a.is_internal b.is_internal).then
            ((cmpBool a.is_external b.is_external).then
              (cmpBool a.is_ready b.is_ready))))))

/-- Derived `Ord` on `Resource`: variant order first (declaration order
`Interface < Node < Service < Pod`), then the variant's field-wise
comparison. -/
def cmpResource : Resource → Resource → Ordering
  | .interface a, .interface b => cmpInterface a b
  | .interface _, .node _ => .lt
  | .interface _, .service _ => .lt
  | .interface _, .pod _ => .lt
  | .node _, .interface _ => .gt
  | .node a, .node b => cmpNode a b
  | .node _, .service _ => .lt
  | .node _, .pod _ => .lt
  | .service _, .interface _ => .gt
  | .service _, .node _ => .gt
  | .service a, .service b => cmpService a b
  | .service _, .pod _ => .lt
  | .pod _, .interface _ => .gt
  | .pod _, .node _ => .gt
  | .pod _, .service _ => .gt
  | .pod a, .pod b => cmpPod a b

theorem cmpProto_eq_iff (a b : Proto) : cmpProto a b = .eq ↔ a = b := by
  cases a <;> cases b <;> simp [cmpProto]

theorem cmpProto_swap (a b : Proto) : cmpProto a b = (cmpProto b a).swap := by
  cases a <;> cases b <;> rfl

theorem cmpPortSpec_eq_iff (a b : PortSpec) : cmpPortSpec a b = .eq ↔ a = b := by
  cases a; cases b
  simp [cmpPortSpec, then_eq_iff, lcmp_eq_iff, cmpProto_eq_iff, PortSpec.mk.injEq, and_assoc]

theorem cmpPortSpec_swap (a b : PortSpec) :
    cmpPortSpec a b = (cmpPortSpec b a).swap := by
  simp [cmpPortSpec, then_swap, lcmp_swap a.host_port, lcmp_swap a.dest_port,
    cmpProto_swap a.proto]

theorem cmpExternalPorts_eq_iff (a b : ExternalPorts) :
    cmpExternalPorts a b = .eq ↔ a = b := by
  cases a; cases b
  simp [cmpExternalPorts, cmpList_eq_iff cmpPortSpec cmpPortSpec_eq_iff,
    ExternalPorts.mk.injEq]

theorem cmpExternalPorts_swap (a b : ExternalPorts) :
    cmpExternalPorts a b = (cmpExternalPorts b a).swap := by
  simpa [cmpExternalPorts] using
    cmpList_swap cmpPortSpec cmpPortSpec_swap a.specs b.specs

theorem cmpInterface_eq_iff (a b : Interface) :
    cmpInterface a b = .eq ↔ a = b := by
  cases a; cases b
  simp [cmpInterface, then_eq_iff, cmpStr_eq_iff, cmpBool_eq_iff,
    Interface.mk.injEq]

theorem cmpInterface_swap (a b : Interface) :
    cmpInterface a b = (cmpInterface b a).swap := by
  simp [cmpInterface, then_swap, cmpStr_swap a.name, cmpBool_swap a.is_external]

theorem cmpNode_eq_iff (a b : Node) : cmpNode a b = .eq ↔ a = b := by
  cases a; cases b
  simp [cmpNode, then_eq_iff, cmpStr_eq_iff, cmpBool_eq_iff, Node.mk.injEq,
    and_assoc]

theorem cmpNode_swap (a b : Node) : cmpNode a b = (cmpNode b a).swap := by
  simp [cmpNode, then_swap, cmpStr_swap a.name, cmpStr_swap a.addr,
    cmpBool_swap a.is_active]

theorem cmpService_eq_iff (a b : Service) : cmpService a b = .eq ↔ a = b := by
  cases a; cases b
  simp [cmpService, then_eq_iff, cmpStr_eq_iff, cmpBool_eq_iff,
    cmpExternalPorts_eq_iff, cmpOpt_eq_iff cmpStr cmpStr_eq_iff,
    Service.mk.injEq, and_assoc]

theorem cmpService_swap (a b : Service) :
    cmpService a b = (cmpService b a).swap := by
  simp [cmpService, then_swap, cmpStr_swap a.name, cmpStr_swap a.namespc,
    cmpExternalPorts_swap a.external_ports, cmpBool_swap a.is_internal,
    cmpOpt_swap cmpStr cmpStr_swap a.allow_range]

theorem cmpPod_eq_iff (a b : Pod) : cmpPod a b = .eq ↔ a = b := by
  cases a; cases b
  simp [cmpPod, then_eq_iff, cmpStr_eq_iff, cmpBool_eq_iff,
    cmpExternalPorts_eq_iff, Pod.mk.injEq, and_assoc]

theorem cmpPod_swap (a b : Pod) : cmpPod a b = (cmpPod b a).swap := by
  simp [cmpPod, then_swap, cmpStr_swap a.name, cmpStr_swap a.namespc,
    cmpStr_swap a.addr, cmpExternalPorts_swap a.external_ports,
    cmpBool_swap a.is_internal, cmpBool_swap a.is_external,
    cmpBool_swap a.is_ready]

theorem cmpResource_eq_iff (a b : Resource) : cmpResource a b = .eq ↔ a = b := by
  cases a <;> cases b <;>
    simp [cmpResource, cmpInterface_eq_iff, cmpNode_eq_iff, cmpService_eq_iff,
      cmpPod_eq_iff]

theorem cmpResource_swap (a b : Resource) :
    cmpResource a b = (cmpResource b a).swap := by
  cases a <;> cases b <;>
    first
      | exact cmpInterface_swap _ _
      | exact cmpNode_swap _ _
      | exact cmpService_swap _ _
      | exact cmpPod_swap _ _
      | rfl

/-! ## Capability interface (`ResourceLike`) -/

/-- `Service::fqn`: `format!("{}/{}", namespace, name)`. -/
def Service.fqn (s : Service) : String := s.namespc ++ "/" ++ s.name

/-- `Service::has_external_ports`. -/
def Service.has_external_ports (s : Service) : Bool :=
  !s.external_ports.specs.isEmpty

/-- `Pod::fqn`. -/
def Pod.fqn (p : Pod) : String := p.namespc ++ "/" ++ p.name

/-- `Pod::has_external_ports`. -/
def Pod.has_external_ports (p : Pod) : Bool := !p.external_ports.specs.isEmpty

/-- `ResourceLike::id` dispatched over the sum. -/
def Resource.id : Resource → String
  | .interface i => i.name
  | .node n => n.name
  | .service s => s.fqn
  | .pod p => p.name

/-- Type tags standing in for Rust `TypeId` in `ResourceLike::type_id`. -/
inductive RTag : Type
  | interface
  | node
  | service
  | pod
deriving DecidableEq, Repr

/-- `ResourceLike::type_id` dispatched over the sum. -/
def Resource.typeTag : Resource → RTag
  | .interface _ => .interface
  | .node _ => .node
  | .service _ => .service
  | .pod _ => .pod

/-- `Pod::is_active` (`src/res/pod.rs`). -/
def Pod.isActivePod (p : Pod) : Bool := p.is_ready && p.has_external_ports

/-- `ResourceLike::is_active` dispatched over the sum: interfaces are always
active, nodes report `is_active`, services are active iff they carry external
ports, pods iff ready and carrying external ports. -/
def Resource.is_active : Resource → Bool
  | .interface _ => true
  | .node n => n.is_active
  | .service s => s.has_external_ports
  | .pod p => p.isActivePod

/-! ## Display helpers used when formatting hash inputs and statements -/

/-- Rust `Display` for `bool`. -/
def boolStr (b : Bool) : String := if b then "true" else "false"

/-- Decimal digit to character. -/
def digitChar (n : Nat) : Char := Char.ofNat (48 + n)

def natCharsAux : Nat → Nat → List Char
  | 0, _ => []
  | fuel + 1, n =>
    if n < 10 then [digitChar n]
    else natCharsAux fuel (n / 10) ++ [digitChar (n % 10)]

/-- Rust `Display` for unsigned integers (decimal). -/
def natStr (n : Nat) : String := String.mk (natCharsAux (n + 1) n)

/-- Rust `Debug` for `Proto` (`{:?}` prints the variant name). -/
def protoDebug : Proto → String
  | .tcp => "Tcp"
  | .udp => "Udp"

/-- `Display` for `PortSpec`: `"{host_port}::{dest_port}::{proto:?}"`. -/
def PortSpec.display (ps : PortSpec) : String :=
  natStr ps.host_port ++ "::" ++ natStr ps.dest_port ++ "::" ++ protoDebug ps.proto

/-- `String::truncate(n)` (keeps the first `n` characters; the strings
truncated by the source are ASCII hex digests). -/
def strTake (s : String) (n : Nat) : String := String.mk (s.toList.take n)

/-- `Service::service_hash` (`src/res/service.rs`), parameterized by the
external `sha256::digest` collaborator:
`truncate16(digest(truncate16(digest(fqn)) ++ join(specs, "::") ++ is_internal
++ allow_range))`. -/
def Service.service_hash (digest : String → String) (s : Service) : String :=
  let fqn_hash := strTake (digest s.fqn) 16
  let port_hash := String.intercalate "::" (s.external_ports.specs.map PortSpec.display)
  strTake
    (digest (fqn_hash ++ port_hash ++ boolStr s.is_internal ++
      s.allow_range.getD "")) 16

/-- `Pod::pod_hash` (`src/res/pod.rs`):
`truncate32(digest(fqn ++ "::" ++ join(specs, "::")))`. -/
def Pod.pod_hash (digest : String → String) (p : Pod) : String :=
  strTake
    (digest (p.fqn ++ "::" ++
      String.intercalate "::" (p.external_ports.specs.map PortSpec.display))) 32

/-! ## State (`src/state.rs`): a `BTreeSet<Resource>` as a sorted list -/

/-- `BTreeSet::insert` on the sorted-list representation: walk to the
insertion point; an element comparing equal is already present and the set
is unchanged. -/
def insertBy {α : Type} (cmp : α → α → Ordering) (x : α) : List α → List α
  | [] => [x]
  | y :: ys =>
    match cmp x y with
    | .lt => x :: y :: ys
    | .eq => y :: ys
    | .gt => y :: insertBy cmp x ys

/-- `BTreeSet::from_iter` / `collect`: successive insertion. -/
def collectBy {α : Type} (cmp : α → α → Ordering) (l : List α) : List α :=
  l.foldl (fun acc x => insertBy cmp x acc) []

/-- `State` (`src/state.rs`): `resources: BTreeSet<Resource>`. -/
structure State : Type where
  resources : List Resource
deriving DecidableEq, Repr

def State.empty : State := ⟨[]⟩

def State.isEmpty (s : State) : Bool := s.resources.isEmpty

/-- `impl Sub for &State`: `BTreeSet` difference. -/
def State.sub (s rhs : State) : State :=
  ⟨s.resources.filter (fun r => decide (r ∉ rhs.resources))⟩

/-- `State::diff`: `(added, removed) = (self - prev, prev - self)`. -/
def State.diff (s prev : State) : State × State :=
  (s.sub prev, prev.sub s)

/-- `Op` (`src/state.rs`). -/
inductive Op : Type
  | resourceAdd (r : Resource)
  | resourceRemove (rid : String)
deriving DecidableEq, Repr

/-- `Op::apply`: `Add` inserts into the set, `Remove` retains resources whose
`id()` differs. -/
def Op.applyOp (op : Op) (s : State) : State :=
  match op with
  | .resourceAdd r => ⟨insertBy cmpResource r s.resources⟩
  | .resourceRemove rid => ⟨s.resources.filter (fun r => r.id != rid)⟩

/-- `state::apply`: fold a sequence of ops into the state. -/
def applyOps (ops : List Op) (s : State) : State :=
  ops.foldl (fun st op => op.applyOp st) s

/-- `Resource::try_into` for `Interface`. -/
def Resource.asInterface : Resource → Option Interface
  | .interface i => some i
  | _ => none

/-- `Resource::try_into` for `Node`. -/
def Resource.asNode : Resource → Option Node
  | .node n => some n
  | _ => none

/-- `Resource::try_into` for `Service`. -/
def Resource.asService : Resource → Option Service
  | .service s => some s
  | _ => none

/-- `Resource::try_into` for `Pod`. -/
def Resource.asPod : Resource → Option Pod
  | .pod p => some p
  | _ => none

/-- `State::get::<Interface>()`: extract one tag, collected into a fresh
`BTreeSet<Interface>`. -/
def State.getInterfaces (s : State) : List Interface :=
  collectBy cmpInterface (s.resources.filterMap Resource.asInterface)

/-- `State::get::<Node>()`. -/
def State.getNodes (s : State) : List Node :=
  collectBy cmpNode (s.resources.filterMap Resource.asNode)

/-- `State::get::<Service>()`. -/
def State.getServices (s : State) : List Service :=
  collectBy cmpService (s.resources.filterMap Resource.asService)

/-- `State::get::<Pod>()`. -/
def State.getPods (s : State) : List Pod :=
  collectBy cmpPod (s.resources.filterMap Resource.asPod)

/-- `State::with::<R>(iter)`: drop all resources of tag `R`, merge in the
replacements, collect into a `BTreeSet`. -/
def State.withResources (s : State) (tag : RTag) (others : List Resource) : State :=
  ⟨collectBy cmpResource
    ((s.resources.filter (fun r => r.typeTag != tag)) ++ others)⟩

def State.withInterfaces (s : State) (l : List Interface) : State :=
  s.withResources .interface (l.map Resource.interface)

def State.withNodes (s : State) (l : List Node) : State :=
  s.withResources .node (l.map Resource.node)

def State.withServices (s : State) (l : List Service) : State :=
  s.withResources .service (l.map Resource.service)

def State.withPods (s : State) (l : List Pod) : State :=
  s.withResources .pod (l.map Resource.pod)

/-! ## Rule planner (`src/operator.rs`) -/

/-- `Rule` (`src/operator.rs`). -/
structure Rule : Type where
  dest_addr : String
  allow_range : Option String
  port_spec : PortSpec
  interface : Interface
  nth : Nat
  out_of : Nat
  comment : Option String
  rule_hash : String
deriving DecidableEq, Repr

/-- `Rule::rule_id`: `format!("{config_hash}::{rule_hash}")`. -/
def Rule.rule_id (r : Rule) (config_hash : String) : String :=
  config_hash ++ "::" ++ r.rule_hash

/-- The per-rule digest input
`format!("{}::{}::{}::{}::{}", dest_addr, nth, out_of, interface.name,
interface.is_external)`, truncated to 16 characters after hashing. -/
def ruleHashCore (digest : String → String) (dest_addr : String)
    (nth out_of : Nat) (interface : Interface) : String :=
  strTake
    (digest (dest_addr ++ "::" ++ natStr nth ++ "::" ++ natStr out_of ++ "::" ++
      interface.name ++ "::" ++ boolStr interface.is_external)) 16

/-- `operator::make_rules`: the service-rule planner.  Iterates the
`iproduct!` of enumerated nodes, services and interfaces (node outermost,
interface innermost), skips `(external interface, internal service)` pairs,
and emits one rule per port spec of the service. -/
def makeRules (digest : String → String) (state : State) : List Rule :=
  let num_nodes := state.getNodes.length
  ((state.getNodes.enum).flatMap fun ni =>
    (state.getServices).flatMap fun service =>
      (state.getInterfaces).map fun interface => (ni, service, interface))
  |>.flatMap fun t =>
    if t.2.2.is_external && t.2.1.is_internal then []
    else
      t.2.1.external_ports.specs.map fun spec =>
        { dest_addr := t.1.2.addr
          allow_range := t.2.1.allow_range
          port_spec := spec
          interface := t.2.2
          nth := t.1.1
          out_of := num_nodes
          comment := some ("service: " ++ t.2.1.fqn ++ "; node: " ++ t.1.2.name)
          rule_hash := "service::" ++ t.2.1.service_hash digest ++ "::" ++
            ruleHashCore digest t.1.2.addr t.1.1 num_nodes t.2.2 }

/-- Insert a pod into the `(host_port, proto)` bucket map.  The source uses a
`HashMap` whose iteration order is arbitrary; the embedding keeps buckets in
first-insertion order. -/
def podMapInsert (key : Nat × Proto) (p : Pod) :
    List ((Nat × Proto) × List Pod) → List ((Nat × Proto) × List Pod)
  | [] => [(key, [p])]
  | (k, ps) :: rest =>
    if k = key then (k, ps ++ [p]) :: rest
    else (k, ps) :: podMapInsert key p rest

/-- The bucket map built by `make_pod_rules`: every active pod is split into
one singleton-spec copy per port spec and pushed into its bucket. -/
def buildPodMap (pods : List Pod) : List ((Nat × Proto) × List Pod) :=
  pods.foldl
    (fun m p =>
      if p.isActivePod then
        p.external_ports.specs.foldl
          (fun m2 s =>
            podMapInsert (s.host_port, s.proto) { p with external_ports := ⟨[s]⟩ } m2)
          m
      else m)
    []

/-- `operator::make_pod_rules`: one rule per `(interface, bucket, pod)` with
`nth` the pod's index inside its bucket and `out_of` the bucket size.  The
source reads `specs[0]` of the singleton-spec pod; `headD` mirrors that
access (buckets only ever hold singleton-spec pods). -/
def makePodRules (digest : String → String) (state : State) : List Rule :=
  let pod_map := buildPodMap state.getPods
  (state.getInterfaces).flatMap fun interface =>
    pod_map.flatMap fun kv =>
      let out_of := kv.2.length
      kv.2.enum.map fun np =>
        { dest_addr := np.2.addr
          allow_range := none
          port_spec := np.2.external_ports.specs.headD ⟨0, 0, .tcp⟩
          interface := interface
          nth := np.1
          out_of := out_of
          comment := some ("pod: " ++ np.2.name ++ "; namespace: " ++ np.2.namespc)
          rule_hash := "pod::" ++ np.2.pod_hash digest ++ "::" ++
            ruleHashCore digest np.2.addr np.1 out_of interface }

/-! ## Reconciler (`src/operator.rs`), as a trace of backend calls -/

/-- Check whether `needle` is an initial segment of `hay`. -/
def listLead : List Char → List Char → Bool
  | [], _ => true
  | _ :: _, [] => false
  | a :: as, b :: bs => a == b && listLead as bs

/-- Check whether `needle` occurs as a contiguous subsequence of `hay`. -/
def listSub (needle : List Char) : List Char → Bool
  | [] => needle.isEmpty
  | b :: bs => listLead needle (b :: bs) || listSub needle bs

/-- Rust `str::contains` (substring search). -/
def strContains (hay needle : String) : Bool := listSub needle.toList hay.toList

/-- One call to the abstract `Backend` trait. -/
inductive BCall : Type
  | readState
  | applyRules (rules : List Rule)
  | deleteRules (pred : String → Bool)

/-- `Operator::reconcile`, embedded as the sequence of backend calls it
makes.  The backend's `config_hash()` is the `configHash` parameter; calls
are modelled on their success path (an executor failure aborts the pass). -/
def reconcileTrace (digest : String → String) (configHash : String)
    (state prev_state : State) : List BCall :=
  let dr := state.diff prev_state
  if dr.1.isEmpty && dr.2.isEmpty then []
  else if state.getNodes ≠ prev_state.getNodes ∨
      state.getInterfaces ≠ prev_state.getInterfaces then
    let new_rules := makeRules digest state ++ makePodRules digest state
    let new_rule_ids := new_rules.map (fun r => r.rule_id configHash)
    [.readState, .applyRules new_rules,
      .deleteRules (fun rule =>
        new_rule_ids.all (fun new_rule_id => !(strContains rule new_rule_id)))]
  else
    [BCall.readState] ++
    (if state.getServices ≠ prev_state.getServices then
      let removed_service_ids := (dr.2.getServices).map (Service.service_hash digest)
      [.applyRules (makeRules digest (state.withServices dr.1.getServices)),
        .deleteRules (fun rule =>
          removed_service_ids.any (fun service_id => strContains rule service_id))]
     else []) ++
    (if state.getPods ≠ prev_state.getPods then
      let new_rules := makePodRules digest state
      let new_rule_ids := new_rules.map (fun r => r.rule_id configHash)
      [.applyRules new_rules,
        .deleteRules (fun rule =>
          strContains rule "pod::" &&
            new_rule_ids.all (fun new_rule_id => !(strContains rule new_rule_id)))]
     else [])

/-- `Operator::cleanup`: refresh, then delete every live rule. -/
def cleanupTrace : List BCall :=
  [.readState, .deleteRules (fun _ => true)]

/-! ## Command batcher (`src/batch.rs`) -/

/-- Rust `str::len` (UTF-8 byte length). -/
def strLen (s : String) : Nat := (s.toList.map (fun c => c.utf8Size)).sum

/-- The string accumulated by `Batch::next` from the items of one batch:
`acc = acc + sep + item` starting from the first item.  Also the `join`
of the spec's concatenation invariant. -/
def joinSep (sep : String) : List String → String
  | [] => ""
  | [x] => x
  | x :: y :: xs => x ++ sep ++ joinSep sep (y :: xs)

/-- Taking the initial item of a batch:
`self._first.take().unwrap_or_else(|| self.inner.next().unwrap_or_default())`. -/
def takeFirst : Option String → List String → String × List String
  | some f, rest => (f, rest)
  | none, [] => ("", [])
  | none, x :: xs => (x, xs)

/-- The accumulation loop of `Batch::next`, tracking the batch as the list
of items joined into `acc`.  Returns `none` when the iterator is exhausted
with an empty `acc` (the iterator ends), otherwise the emitted batch, the
stashed `_first` item, and the remaining input. -/
def goBatch (N : Nat) (sep : String) (group : List String) :
    List String → Option (List String × Option String × List String)
  | [] => if joinSep sep group = "" then none else some (group, none, [])
  | item :: xs =>
    if N ≤ strLen (joinSep sep group) + strLen item then some (group, some item, xs)
    else goBatch N sep (group ++ [item]) xs

/-- One call to `Batch::next` (`arg_max = N`): take the first item, emit it
alone if it exceeds `N`, otherwise accumulate. -/
def batchNext (N : Nat) (sep : String) (first? : Option String)
    (rest : List String) : Option (List String × Option String × List String) :=
  let fr := takeFirst first? rest
  if N < strLen fr.1 then some ([fr.1], none, fr.2)
  else goBatch N sep [fr.1] fr.2

def optCount {α : Type} : Option α → Nat
  | none => 0
  | some _ => 1

/-- Driving the `Batch` iterator to completion (fuel-indexed; the fuel is
sized so that it never runs out, see `batchFrom_eq`). -/
def batchRun (N : Nat) (sep : String) : Nat → Option String → List String → List (List String)
  | 0, _, _ => []
  | fuel + 1, first?, rest =>
    match batchNext N sep first? rest with
    | none => []
    | some (g, st, r) => g :: batchRun N sep fuel st r

/-- All batches produced from the iterator state `(first?, rest)`. -/
def batchFrom (N : Nat) (sep : String) (first? : Option String)
    (rest : List String) : List (List String) :=
  batchRun N sep (optCount first? + rest.length + 1) first? rest

/-- The batches (as item groups) of `Batch::new(cs, N, sep).collect()`. -/
def batchGroups (N : Nat) (sep : String) (cs : List String) : List (List String) :=
  batchFrom N sep none cs

/-- The batch strings actually emitted by the iterator. -/
def batchStrings (N : Nat) (sep : String) (cs : List String) : List String :=
  (batchGroups N sep cs).map (joinSep sep)

/-! ## Debouncer (`src/debounce.rs`) -/

/-- `debounce::State`: either waiting for the upstream or holding an armed
sleep with its deadline. -/
inductive DState : Type
  | waitingForInner
  | debouncing (deadline : Nat)
deriving DecidableEq, Repr

/-- The fields of `Debounce<S>` (queue, state, duration `D`, capacity `K`). -/
structure DebState (α : Type) : Type where
  queue : List α
  dstate : DState
  duration : Nat
  capacity : Nat
deriving DecidableEq, Repr

/-- One scripted answer of the upstream stream to a poll. -/
inductive InnerPoll (α : Type) : Type
  | item (a : α)
  | pending
  | ended
deriving DecidableEq, Repr

/-- The outcome of polling the debouncer. -/
inductive PollOut (α : Type) : Type
  | batch (items : List α)
  | pending
  | ended
deriving DecidableEq, Repr

/-- `Debounce::drain_after_deadline` at monotonic time `now`: pending unless
an armed sleep has expired, in which case the whole queue is drained. -/
def drainAfterDeadline {α : Type} (now : Nat) (st : DebState α) :
    PollOut α × DebState α :=
  match st.dstate with
  | .waitingForInner => (.pending, st)
  | .debouncing d =>
    if d ≤ now then (.batch st.queue, { st with queue := [], dstate := .waitingForInner })
    else (.pending, st)

/-- `Debounce::poll_next` at time `now`, with the upstream's answers
scripted by `inner` (an exhausted script answers `pending`).  While the
queue is below capacity the upstream is polled; an item is queued and
re-arms the sleep for `now + duration`; at capacity the loop stops and the
deadline is consulted. -/
def pollNext {α : Type} (now : Nat) (st : DebState α) (inner : List (InnerPoll α)) :
    PollOut α × DebState α × List (InnerPoll α) :=
  if st.capacity ≤ st.queue.length then
    let od := drainAfterDeadline now st
    (od.1, od.2, inner)
  else
    match inner with
    | [] =>
      let od := drainAfterDeadline now st
      (od.1, od.2, [])
    | .pending :: rest =>
      let od := drainAfterDeadline now st
      (od.1, od.2, rest)
    | .ended :: rest =>
      if st.queue.isEmpty then (.ended, st, rest)
      else
        let od := drainAfterDeadline now st
        (od.1, od.2, rest)
    | .item a :: rest =>
      pollNext now
        { st with queue := st.queue ++ [a], dstate := .debouncing (now + st.duration) }
        rest

/-! ## Event translation (`src/state.rs`, `impl From<Event<C>> for Ops`) -/

/-- `kube::runtime::watcher::Event` as delivered to the translation. -/
inductive KEvent (C : Type) : Type
  | applied (obj : C)
  | restarted (objs : List C)
  | deleted (obj : C)

/-- `Ops::from(event)`: `Applied` emits `Remove(id)` then `Add` iff active;
`Restarted` emits `Add` for every successfully parsed active object;
`Deleted` emits `Remove(id)`; parse failures contribute nothing. -/
def opsFromEvent {C : Type} (tryFrom : C → Option Resource) : KEvent C → List Op
  | .applied obj =>
    match tryFrom obj with
    | some res =>
      [Op.resourceRemove res.id] ++
        (if res.is_active then [Op.resourceAdd res] else [])
    | none => []
  | .restarted objs =>
    ((objs.filterMap tryFrom).filter Resource.is_active).map Op.resourceAdd
  | .deleted obj =>
    match tryFrom obj with
    | some res => [Op.resourceRemove res.id]
    | none => []

/-! ## Annotation grammar (`src/res/external_ports.rs`) -/

/-- Rust `str::split(sep)` on a single-character pattern. -/
def splitChars (sep : Char) : List Char → List (List Char)
  | [] => [[]]
  | c :: rest =>
    let r := splitChars sep rest
    if c = sep then [] :: r
    else
      match r with
      | [] => [[c]]
      | h :: t => (c :: h) :: t

def strSplit (s : String) (sep : Char) : List String :=
  (splitChars sep s.toList).map String.mk

def parseDigitsAux : List Char → Nat → Option Nat
  | [], acc => some acc
  | c :: cs, acc =>
    if c.isDigit then parseDigitsAux cs (acc * 10 + (c.toNat - 48)) else none

/-- Rust `str::parse::<u16>()`: optional leading `+`, one or more ASCII
digits, value within `u16` range. -/
def parseU16 (s : String) : Option Nat :=
  let cs :=
    match s.toList with
    | '+' :: rest => rest
    | cs => cs
  match cs with
  | [] => none
  | _ =>
    match parseDigitsAux cs 0 with
    | some n => if n ≤ 65535 then some n else none
    | none => none

/-- One comma-separated entry of the annotation, as parsed by
`ExternalPorts::from_str`: 2 or 3 colon-separated fields, the first two
`u16`s; a third field equal to `"udp"` selects UDP, anything else TCP. -/
def parsePortSpecEntry (x : String) : Option PortSpec :=
  match strSplit x ':' with
  | [a, b] =>
    match parseU16 a, parseU16 b with
    | some hp, some dp => some ⟨hp, dp, .tcp⟩
    | _, _ => none
  | [a, b, c] =>
    match parseU16 a, parseU16 b with
    | some hp, some dp => some ⟨hp, dp, if c = "udp" then .udp else .tcp⟩
    | _, _ => none
  | _ => none

/-- `ExternalPorts::from_str`: parse every comma-separated entry; any
malformed entry (or an empty entry list, which cannot arise from `split`)
fails the whole annotation. -/
def externalPortsFromStr (s : String) : Option ExternalPorts :=
  let ports := (strSplit s ',').map parsePortSpecEntry
  if ports.isEmpty then none
  else if ports.any (fun p => p.isNone) then none
  else some ⟨ports.filterMap id⟩

/-- Spec-side predicate, following the claim's grammar `host:dest[:proto]`
with proto omitted, `tcp`, or `udp`.  Used to compare the claimed grammar
with the code's parser. -/
def specEntryGrammar (x : String) : Bool :=
  match strSplit x ':' with
  | [a, b] => (parseU16 a).isSome && (parseU16 b).isSome
  | [a, b, c] =>
    (parseU16 a).isSome && (parseU16 b).isSome && (c = "tcp" || c = "udp")
  | _ => false

/-- Spec-side predicate for the amended grammar: 2 or 3 colon-separated
fields whose first two parse as `u16`; the proto field is unconstrained. -/
def entryWellFormed (x : String) : Bool :=
  match strSplit x ':' with
  | [a, b] => (parseU16 a).isSome && (parseU16 b).isSome
  | [a, b, _] => (parseU16 a).isSome && (parseU16 b).isSome
  | _ => false

/-! ## NAT backend (`src/iptables.rs`)

`src/iptables.rs` is written against a `Rule` revision (with embedded
`service`/`node`/`node_index`) and `operator::{rule_id, service_id}`
helpers that are not present under `src/`; only this backend file survives
from that revision.  The missing pieces are modelled from the spec below. -/

/-- `PortSpec` of the revision in `src/res/external_port.rs`
(`host_port`/`node_port`). -/
structure IptPortSpec : Type where
  host_port : Nat
  node_port : Nat
  proto : Proto
deriving DecidableEq, Repr

/-- Modelled from the spec: the `Service` shape used by `src/iptables.rs`
(an `operator.rs` revision not under `src/`): fqn fields, port specs and
the optional `allow_range` CIDR. -/
structure IptService : Type where
  name : String
  namespc : String
  external_ports : List IptPortSpec
  allow_range : Option String
deriving DecidableEq, Repr

def IptService.fqn (s : IptService) : String := s.namespc ++ "/" ++ s.name

/-- Modelled from the spec: the `Rule` shape consumed by `src/iptables.rs`
(fields taken from the backend's accesses: `node_index`, `service`, `node`,
`interface`). -/
structure IptRule : Type where
  node_index : Nat
  service : IptService
  node : Node
  interface : Interface
deriving DecidableEq, Repr

/-- Modelled from the spec: `operator::rule_id` of the missing revision.
The spec fixes a rule's full id as `"<config_hash>::<rule_hash>"`; the rule
hash itself is the parameter `ruleHashFn`. -/
def iptRuleId (ruleHashFn : IptRule → String) (r : IptRule)
    (config_hash : String) : String :=
  config_hash ++ "::" ++ ruleHashFn r

/-- Rust `Debug` for `Option<String>`. -/
def optDebug : Option String → String
  | none => "None"
  | some s => "Some(\"" ++ s ++ "\")"

/-- `IptablesBackend::config_hash`:
`truncate32(digest(format!("{:?}::{:?}", local_ip, extra_ips)))`. -/
def iptConfigHash (digest : String → String)
    (local_ip extra_ips : Option String) : String :=
  strTake (digest (optDebug local_ip ++ "::" ++ optDebug extra_ips)) 32

/-- `IptablesBackend::iptables_statement`.  In the `"lo"` arm the source
panics when no local IP is configured; the embedding substitutes the empty
string there (the claims settled here do not reach that arm). -/
def iptablesStatement (serviceIdFn : IptRule → String)
    (ruleHashFn : IptRule → String) (config_hash : String)
    (local_ip : Option String) (port_spec : IptPortSpec) (r : IptRule) : String :=
  let d_ip :=
    match local_ip with
    | none => ""
    | some ip => "-d " ++ ip
  let s_range :=
    match r.service.allow_range with
    | none => ""
    | some s => "-s " ++ s
  let protoState :=
    match port_spec.proto with
    | .tcp => ("-p tcp", "-m state --state NEW")
    | .udp => ("-p udp", "")
  let chainSelector :=
    if r.interface.name = "lo" then
      ("OUTPUT",
        "-o lo -d " ++ local_ip.getD "" ++ " " ++ protoState.1 ++ " --dport " ++
          natStr port_spec.host_port ++ " " ++ protoState.2)
    else
      ("PREROUTING",
        "-i " ++ r.interface.name ++ " " ++ s_range ++ " " ++ d_ip ++ " " ++
          protoState.1 ++ " --dport " ++ natStr port_spec.host_port ++ " " ++
          protoState.2)
  let balance :=
    if r.node_index = 0 then ""
    else "-m statistic --mode nth --every " ++ natStr (r.node_index + 1) ++
      " --packet 0"
  let comment :=
    "-m comment --comment 'service: " ++ r.service.fqn ++ "; node: " ++
      r.node.name ++ "; epok_rule_id: " ++ iptRuleId ruleHashFn r config_hash ++
      "; epok_service_id: " ++ serviceIdFn r ++ "'"
  let jump :=
    "-j DNAT --to-destination " ++ r.node.addr ++ ":" ++
      natStr port_spec.node_port
  chainSelector.1 ++ " " ++ chainSelector.2 ++ " " ++ balance ++ " " ++
    comment ++ " " ++ jump

/-- Descending insertion sort by key, standing in for
`sorted_unstable_by_key(Reverse(node_index))` (tie order is unspecified in
the source's unstable sort). -/
def insertDescBy (key : IptRule → Nat) (x : IptRule) :
    List IptRule → List IptRule
  | [] => [x]
  | y :: ys => if key y < key x then x :: y :: ys else y :: insertDescBy key x ys

def sortByKeyDesc (key : IptRule → Nat) (l : List IptRule) : List IptRule :=
  l.foldr (insertDescBy key) []

/-- The command strings handed to `run_commands` by
`IptablesBackend::apply_rules`: drop every rule whose full id already occurs
in the live `rule_state`, order the rest by descending `node_index`, emit one
statement per port spec, and prefix each with the iptables invocation. -/
def iptApplyCommands (serviceIdFn : IptRule → String)
    (ruleHashFn : IptRule → String) (config_hash : String)
    (local_ip : Option String) (rule_state : String)
    (rules : List IptRule) : List String :=
  ((sortByKeyDesc (fun r => r.node_index)
      (rules.filter
        (fun rule => !(strContains rule_state (iptRuleId ruleHashFn rule config_hash))))).flatMap
    (fun rule =>
      rule.service.external_ports.map
        (fun port_spec =>
          iptablesStatement serviceIdFn ruleHashFn config_hash local_ip
            port_spec rule))).map
    (fun stmt => "sudo iptables -w -t nat -A " ++ stmt)

/-- `Executor::run_commands`: the shell invocations actually issued, with or
without batching. -/
def runCommandsExec (batch_commands : Bool) (batch_size : Nat)
    (commands : List String) : List String :=
  if batch_commands then batchStrings batch_size "; " commands else commands

/-- The shell invocations issued by one `apply_rules` call. -/
def iptApplyExec (serviceIdFn : IptRule → String)
    (ruleHashFn : IptRule → String) (config_hash : String)
    (local_ip : Option String) (batch_commands : Bool) (batch_size : Nat)
    (rule_state : String) (rules : List IptRule) : List String :=
  runCommandsExec batch_commands batch_size
    (iptApplyCommands serviceIdFn ruleHashFn config_hash local_ip rule_state rules)

/-! ## Sorted-set lemmas -/

/-- The strict order underlying the `BTreeSet` embedding. -/
def rlt (a b : Resource) : Prop := cmpResource a b = .lt

/-- A `State` whose resource list is strictly sorted, i.e. a faithful
`BTreeSet` image.  Every state built by the program is of this shape. -/
def State.SortedRes (s : State) : Prop := s.resources.Pairwise rlt

instance : DecidableRel rlt := fun a b =>
  inferInstanceAs (Decidable (cmpResource a b = .lt))

instance (s : State) : Decidable s.SortedRes :=
  inferInstanceAs (Decidable (s.resources.Pairwise rlt))

theorem rlt_irrefl (a : Resource) : ¬ rlt a a := by
  unfold rlt
  rw [(cmpResource_eq_iff a a).mpr rfl]
  intro h
  exact Ordering.noConfusion h

theorem rlt_asymm {a b : Resource} (h : rlt a b) : ¬ rlt b a := by
  unfold rlt at h ⊢
  rw [cmpResource_swap b a, h]
  intro hc
  exact Ordering.noConfusion hc

/-- Two strictly sorted lists with the same members are equal. -/
theorem sorted_eq_of_mem_iff :
    ∀ {s p : List Resource}, s.Pairwise rlt → p.Pairwise rlt →
      (∀ x, x ∈ s ↔ x ∈ p) → s = p := by
  intro s
  induction s with
  | nil =>
    intro p _ _ hm
    cases p with
    | nil => rfl
    | cons b bs => exact absurd ((hm b).mpr (List.mem_cons_self b bs)) (by simp)
  | cons a as ih =>
    intro p hs hp hm
    cases p with
    | nil => exact absurd ((hm a).mp (List.mem_cons_self a as)) (by simp)
    | cons b bs =>
      have hab : a = b := by
        by_contra hne
        have ha : a ∈ b :: bs := (hm a).mp (List.mem_cons_self a as)
        have hb : b ∈ a :: as := (hm b).mpr (List.mem_cons_self b bs)
        have ha2 : a ∈ bs := by
          rcases List.mem_cons.mp ha with h | h
          · exact absurd h hne
          · exact h
        have hb2 : b ∈ as := by
          rcases List.mem_cons.mp hb with h | h
          · exact absurd h.symm hne
          · exact h
        have h1 : rlt b a := (List.pairwise_cons.mp hp).1 a ha2
        have h2 : rlt a b := (List.pairwise_cons.mp hs).1 b hb2
        exact rlt_asymm h2 h1
      subst hab
      have htails : ∀ x, x ∈ as ↔ x ∈ bs := by
        intro x
        constructor
        · intro hx
          have := (hm x).mp (List.mem_cons_of_mem a hx)
          rcases List.mem_cons.mp this with h | h
          · subst h
            exact absurd ((List.pairwise_cons.mp hs).1 x hx) (rlt_irrefl x)
          · exact h
        · intro hx
          have := (hm x).mpr (List.mem_cons_of_mem a hx)
          rcases List.mem_cons.mp this with h | h
          · subst h
            exact absurd ((List.pairwise_cons.mp hp).1 x hx) (rlt_irrefl x)
          · exact h
      rw [ih (List.pairwise_cons.mp hs).2 (List.pairwise_cons.mp hp).2 htails]

/-- Inserting an element that compares equal to no member behaves like
`cons` up to permutation. -/
theorem insertBy_perm {α : Type} (cmp : α → α → Ordering) (x : α) :
    ∀ l : List α, (∀ y ∈ l, cmp x y ≠ .eq) →
      (insertBy cmp x l).Perm (x :: l) := by
  intro l
  induction l with
  | nil => intro _; simp [insertBy]
  | cons y ys ih =>
    intro h
    simp only [insertBy]
    rcases hc : cmp x y with _ | _ | _
    · exact List.Perm.refl _
    · exact absurd hc (h y (List.mem_cons_self y ys))
    · have hih := ih (fun z hz => h z (List.mem_cons_of_mem y hz))
      exact (hih.cons y).trans (List.Perm.swap x y ys)

/-- Complementary filters partition the length. -/
theorem length_filter_add {α : Type} (p : α → Bool) (l : List α) :
    (l.filter p).length + (l.filter (fun a => !(p a))).length = l.length := by
  induction l with
  | nil => rfl
  | cons a as ih =>
    cases hp : p a <;> simp [List.filter_cons, hp, Nat.succ_eq_add_one] <;> omega

/-! ## Claim C1 -/

def svcC1a : Service := ⟨"foo", "bar", ⟨[⟨123, 456, .tcp⟩]⟩, false, none⟩

def svcC1b : Service := ⟨"foo", "bar", ⟨[⟨333, 444, .tcp⟩]⟩, false, none⟩

/-- Claim C1, counterexample: applying `Add(r)` alone to a state holding a
different resource `r2` of the same identity and type grows the state to two
resources (both remain), instead of leaving the size unchanged with `r` as
the only occurrence.  `Op::apply` inserts into a `BTreeSet` keyed by the
whole record, so structurally different records never replace each other. -/
theorem c1_add_counterexample :
    (Resource.service svcC1b).id = (Resource.service svcC1a).id ∧
    (Resource.service svcC1b).typeTag = (Resource.service svcC1a).typeTag ∧
    Resource.service svcC1b ≠ Resource.service svcC1a ∧
    ((Op.resourceAdd (Resource.service svcC1b)).applyOp
        ⟨[Resource.service svcC1a]⟩).resources.length = 2 ∧
    ((Op.resourceAdd (Resource.service svcC1b)).applyOp
        ⟨[Resource.service svcC1a]⟩).resources.filter
      (fun x => x.id == (Resource.service svcC1b).id) =
      [Resource.service svcC1a, Resource.service svcC1b] := by
  decide

/-- Claim C1, amended: replace-by-identity holds for the op pair
`[Remove(r.id), Add(r)]` — which is exactly what the event translation
emits for every `Apply` — rather than for a bare `Add(r)`.  Applying that
pair to a state holding exactly one resource with identity `r.id` leaves
the size unchanged and leaves `r` as the only resource with that identity
(hence also the only one with that identity and type). -/
theorem c1_replace_by_identity (s : State) (r : Resource)
    (h : (s.resources.filter (fun x => x.id == r.id)).length = 1) :
    (applyOps [Op.resourceRemove r.id, Op.resourceAdd r] s).resources.length =
        s.resources.length ∧
    (applyOps [Op.resourceRemove r.id, Op.resourceAdd r] s).resources.filter
        (fun x => x.id == r.id) = [r] := by
  have hres : (applyOps [Op.resourceRemove r.id, Op.resourceAdd r] s).resources =
      insertBy cmpResource r (s.resources.filter (fun x => x.id != r.id)) := rfl
  set l1 := s.resources.filter (fun x => x.id != r.id) with hl1
  have hnl1 : ∀ y ∈ l1, cmpResource r y ≠ .eq := by
    intro y hy hc
    have hry : r = y := (cmpResource_eq_iff r y).mp hc
    have := (List.mem_filter.mp hy).2
    rw [← hry] at this
    simp at this
  have hperm : (insertBy cmpResource r l1).Perm (r :: l1) :=
    insertBy_perm cmpResource r l1 hnl1
  constructor
  · rw [hres, hperm.length_eq]
    have hsplit := length_filter_add (fun x => x.id == r.id) s.resources
    have hl1len : l1.length = (s.resources.filter (fun x => !(x.id == r.id))).length := by
      rw [hl1]
      congr 1
    simp only [List.length_cons, hl1len]
    omega
  · rw [hres]
    have hfp : ((insertBy cmpResource r l1).filter (fun x => x.id == r.id)).Perm
        ((r :: l1).filter (fun x => x.id == r.id)) := hperm.filter _
    have hl1f : l1.filter (fun x => x.id == r.id) = [] := by
      rw [List.filter_eq_nil_iff]
      intro a ha
      have := (List.mem_filter.mp ha).2
      simpa using this
    rw [List.filter_cons_of_pos (by simp), hl1f] at hfp
    exact List.perm_singleton.mp hfp

/-- Witness for `c1_replace_by_identity` at a concrete state. -/
theorem c1_replace_by_identity_witness :
    ((applyOps [Op.resourceRemove (Resource.service svcC1b).id,
        Op.resourceAdd (Resource.service svcC1b)]
      ⟨[Resource.service svcC1a]⟩).resources.length = 1 ∧
    (applyOps [Op.resourceRemove (Resource.service svcC1b).id,
        Op.resourceAdd (Resource.service svcC1b)]
      ⟨[Resource.service svcC1a]⟩).resources.filter
        (fun x => x.id == (Resource.service svcC1b).id) =
      [Resource.service svcC1b]) :=
  c1_replace_by_identity ⟨[Resource.service svcC1a]⟩ (Resource.service svcC1b)
    (by decide)

/-! ## Claim C9 -/

theorem sub_self_empty (s : State) : (s.sub s).resources = [] := by
  unfold State.sub
  rw [List.filter_eq_nil_iff]
  intro a ha
  simp [ha]

/-- Claim C9: `reconcile(state, state)` is a no-op — the diff is empty, the
reconciler returns `Ok` before touching the backend, so no live-state read,
no apply, no delete, and no shell command is issued. -/
theorem c9_reconcile_idempotent (digest : String → String) (configHash : String)
    (s : State) : reconcileTrace digest configHash s s = [] := by
  unfold reconcileTrace
  have h1 : (s.diff s).1.isEmpty = true := by
    unfold State.diff State.isEmpty
    simp [sub_self_empty]
  have h2 : (s.diff s).2.isEmpty = true := by
    unfold State.diff State.isEmpty
    simp [sub_self_empty]
  simp only [h1, h2, Bool.and_self, if_true]

/-! ## Claim C2 -/

theorem state_eq_of_diff_empty {s p : State} (hs : s.SortedRes) (hp : p.SortedRes)
    (h1 : (s.sub p).isEmpty = true) (h2 : (p.sub s).isEmpty = true) : s = p := by
  have hmem : ∀ x, x ∈ s.resources ↔ x ∈ p.resources := by
    intro x
    have e1 : ∀ a ∈ s.resources, a ∈ p.resources := by
      intro a ha
      by_contra hnot
      have : s.resources.filter (fun r => decide (r ∉ p.resources)) = [] := by
        simpa [State.sub, State.isEmpty, List.isEmpty_iff] using h1
      rw [List.filter_eq_nil_iff] at this
      exact this a ha (by simpa using hnot)
    have e2 : ∀ a ∈ p.resources, a ∈ s.resources := by
      intro a ha
      by_contra hnot
      have : p.resources.filter (fun r => decide (r ∉ s.resources)) = [] := by
        simpa [State.sub, State.isEmpty, List.isEmpty_iff] using h2
      rw [List.filter_eq_nil_iff] at this
      exact this a ha (by simpa using hnot)
    exact ⟨e1 x, e2 x⟩
  have := sorted_eq_of_mem_iff hs hp hmem
  cases s; cases p
  simpa using this

/-- Claim C2: when the node set or the interface set changed, the reconciler
performs exactly the nuclear cycle: one live-state read, one `apply_rules`
with the full planned rule set for `state` (service rules then pod rules),
and one `delete_rules` whose predicate accepts exactly the live lines
containing none of the new rule ids — and nothing else (the service-only and
pod-only cases are skipped by the early return). -/
theorem c2_nuclear_cycle (digest : String → String) (configHash : String)
    (state prev_state : State) (hs : state.SortedRes) (hp : prev_state.SortedRes)
    (hne : state.getNodes ≠ prev_state.getNodes ∨
      state.getInterfaces ≠ prev_state.getInterfaces) :
    ∃ pred,
      reconcileTrace digest configHash state prev_state =
        [BCall.readState,
          BCall.applyRules (makeRules digest state ++ makePodRules digest state),
          BCall.deleteRules pred] ∧
      ∀ line, pred line = true ↔
        ∀ rid ∈ (makeRules digest state ++ makePodRules digest state).map
            (fun r => r.rule_id configHash),
          strContains line rid = false := by
  have hne2 : ¬((state.diff prev_state).1.isEmpty ∧
      (state.diff prev_state).2.isEmpty) := by
    rintro ⟨h1, h2⟩
    have : state = prev_state :=
      state_eq_of_diff_empty hs hp h1 h2
    rcases hne with h | h <;> exact h (by rw [this])
  refine ⟨fun rule =>
      ((makeRules digest state ++ makePodRules digest state).map
        (fun r => r.rule_id configHash)).all
        (fun new_rule_id => !(strContains rule new_rule_id)), ?_, ?_⟩
  · unfold reconcileTrace
    rw [if_neg (by simpa [Bool.and_eq_true] using hne2), if_pos hne]
  · intro line
    rw [List.all_eq_true]
    apply forall_congr'
    intro rid
    apply imp_congr Iff.rfl
    simp

/-- Witness for `c2_nuclear_cycle`: a node appears between two states. -/
theorem c2_nuclear_cycle_witness :
    ∃ pred,
      reconcileTrace (fun s => s) "cfg"
          (State.empty.withNodes [⟨"n", "10.0.0.1", true⟩]) State.empty =
        [BCall.readState,
          BCall.applyRules
            (makeRules (fun s => s)
                (State.empty.withNodes [⟨"n", "10.0.0.1", true⟩]) ++
              makePodRules (fun s => s)
                (State.empty.withNodes [⟨"n", "10.0.0.1", true⟩])),
          BCall.deleteRules pred] ∧
      ∀ line, pred line = true ↔
        ∀ rid ∈ (makeRules (fun s => s)
              (State.empty.withNodes [⟨"n", "10.0.0.1", true⟩]) ++
            makePodRules (fun s => s)
              (State.empty.withNodes [⟨"n", "10.0.0.1", true⟩])).map
            (fun r => r.rule_id "cfg"),
          strContains line rid = false :=
  c2_nuclear_cycle (fun s => s) "cfg"
    (State.empty.withNodes [⟨"n", "10.0.0.1", true⟩]) State.empty
    (by decide) (by decide) (Or.inl (by decide))

/-! ## Claim C3 -/

/-- The inactive node of the C3 counterexample state. -/
def nodeC3 : Node := ⟨"n1", "10.0.0.1", false⟩

/-- A state holding one interface, one service with one port spec, and one
node that is not active. -/
def sC3 : State :=
  ((State.empty.withInterfaces [⟨"eth0", false⟩]).withNodes [nodeC3]).withServices
    [svcC1a]

/-- Claim C3, counterexample: the planner emits a rule for a node with
`is_active = false` (with `out_of` counting it), whereas the claim requires
rules only for tuples whose node is active — for `sC3`, whose only node is
inactive, the claim demands zero rules, but `make_rules` emits one. -/
theorem c3_counterexample :
    sC3.getNodes = [nodeC3] ∧
    nodeC3.is_active = false ∧
    (makeRules (fun s => s) sC3).length = 1 ∧
    (makeRules (fun s => s) sC3).map (fun r => r.out_of) = [1] := by
  decide

/-- Spec-side planner, written from the amended claim: one service rule for
each tuple `(node, service, interface, port_spec)` drawn from the state's
node set (active or not, in stored order), service set and interface set,
excluding `(external interface, internal service)` pairs; `dest_addr` is the
node's address, `nth` the node's index within the full stored node set, and
`out_of` that set's size. -/
def plannedServiceRules (digest : String → String) (state : State) : List Rule :=
  let nodes := state.getNodes
  nodes.enum.flatMap fun ni =>
    state.getServices.flatMap fun service =>
      state.getInterfaces.flatMap fun interface =>
        if interface.is_external && service.is_internal then []
        else
          service.external_ports.specs.map fun spec =>
            { dest_addr := ni.2.addr
              allow_range := service.allow_range
              port_spec := spec
              interface := interface
              nth := ni.1
              out_of := nodes.length
              comment := some ("service: " ++ service.fqn ++ "; node: " ++ ni.2.name)
              rule_hash := "service::" ++ service.service_hash digest ++ "::" ++
                ruleHashCore digest ni.2.addr ni.1 nodes.length interface }

/-- Claim C3, amended: the service-rule planner emits exactly the rules of
the tuple comprehension over the *full* stored node set (no `is_active`
filter; a service with no port specs contributes nothing, which subsumes the
service-activity condition), with `nth` the node's index in that set and
`out_of` its cardinality. -/
theorem c3_planner_rules (digest : String → String) (state : State) :
    makeRules digest state = plannedServiceRules digest state := by
  unfold makeRules plannedServiceRules
  simp only [List.flatMap_assoc, List.flatMap_map]

/-! ## Claim C4 -/

/-- Claim C4, counterexample: with capacity `K = 2` and quiet period
`D = 100`, feeding two items instantly (a single poll at time `0` in which
the upstream yields both) fills the queue to capacity yet emits no batch —
`poll_next` returns `Pending` with the sleep still armed for time `100`.
The claim requires an immediate batch `[1, 2]`. -/
theorem c4_capacity_counterexample :
    pollNext 0 (⟨[], .waitingForInner, 100, 2⟩ : DebState Nat)
        [.item 1, .item 2] =
      (.pending, ⟨[1, 2], .debouncing 100, 100, 2⟩, []) ∧
    ([1, 2] : List Nat).length = 2 := by
  decide

/-- Claim C4, amended: when the queue has reached capacity `K`, the
debouncer stops consuming the upstream (the poll leaves the upstream
untouched) and the pending batch — the whole queue — is emitted exactly on
a poll at which the armed quiet-period timer has expired; otherwise the
poll stays pending. -/
theorem c4_capacity_stops_consuming {α : Type} (now : Nat) (st : DebState α)
    (inner : List (InnerPoll α)) (h : st.capacity ≤ st.queue.length) :
    (pollNext now st inner).2.2 = inner ∧
    ((pollNext now st inner).1 = PollOut.batch st.queue ↔
      ∃ d, st.dstate = DState.debouncing d ∧ d ≤ now) := by
  unfold pollNext
  rw [if_pos h]
  cases hd : st.dstate with
  | waitingForInner => simp [drainAfterDeadline, hd]
  | debouncing d =>
    by_cases hdn : d ≤ now
    · simp [drainAfterDeadline, hd, hdn]
    · simp [drainAfterDeadline, hd, hdn]

/-- Witness for `c4_capacity_stops_consuming`: a full queue with an expired
deadline emits the batch and leaves the upstream alone. -/
theorem c4_capacity_stops_consuming_witness :
    (pollNext 60 (⟨[1, 2], .debouncing 50, 100, 2⟩ : DebState Nat)
        [.item 9]).2.2 = [InnerPoll.item 9] ∧
    ((pollNext 60 (⟨[1, 2], .debouncing 50, 100, 2⟩ : DebState Nat)
        [.item 9]).1 = PollOut.batch [1, 2] ↔
      ∃ d, DState.debouncing 50 = DState.debouncing d ∧ d ≤ 60) :=
  c4_capacity_stops_consuming 60 ⟨[1, 2], .debouncing 50, 100, 2⟩
    [.item 9] (by decide)

/-! ## Claims C5 and C6 -/

theorem goBatch_measure (N : Nat) (sep : String) :
    ∀ (rest group g : List String) (st : Option String) (r : List String),
      goBatch N sep group rest = some (g, st, r) →
      optCount st + r.length ≤ rest.length := by
  intro rest
  induction rest with
  | nil =>
    intro group g st r h
    simp only [goBatch] at h
    split at h
    · exact Option.noConfusion h
    · obtain ⟨rfl, rfl, rfl⟩ : group = g ∧ none = st ∧ ([] : List String) = r := by
        simpa using h
      simp [optCount]
  | cons item xs ih =>
    intro group g st r h
    simp only [goBatch] at h
    split at h
    · obtain ⟨rfl, rfl, rfl⟩ : group = g ∧ some item = st ∧ xs = r := by
        simpa using h
      show 1 + xs.length ≤ xs.length + 1
      omega
    · have := ih (group ++ [item]) g st r h
      simp only [List.length_cons]
      omega

theorem batchNext_measure (N : Nat) (sep : String) :
    ∀ (first? : Option String) (rest g : List String) (st : Option String)
      (r : List String),
      batchNext N sep first? rest = some (g, st, r) →
      optCount st + r.length < optCount first? + rest.length := by
  intro first? rest g st r h
  cases first? with
  | some f =>
    simp only [batchNext, takeFirst] at h
    split at h
    · obtain ⟨rfl, rfl, rfl⟩ : [f] = g ∧ none = st ∧ rest = r := by
        simpa using h
      show 0 + rest.length < 1 + rest.length
      omega
    · have := goBatch_measure N sep rest [f] g st r h
      show optCount st + r.length < 1 + rest.length
      omega
  | none =>
    cases rest with
    | nil =>
      simp only [batchNext, takeFirst] at h
      rw [if_neg (by simp [strLen])] at h
      simp [goBatch, joinSep] at h
    | cons x xs =>
      simp only [batchNext, takeFirst] at h
      split at h
      · obtain ⟨rfl, rfl, rfl⟩ : [x] = g ∧ none = st ∧ xs = r := by
          simpa using h
        show 0 + xs.length < 0 + (xs.length + 1)
        omega
      · have := goBatch_measure N sep xs [x] g st r h
        show optCount st + r.length < 0 + (xs.length + 1)
        omega

theorem batchRun_fuel (N : Nat) (sep : String) :
    ∀ (fuel fuel2 : Nat) (first? : Option String) (rest : List String),
      optCount first? + rest.length < fuel →
      optCount first? + rest.length < fuel2 →
      batchRun N sep fuel first? rest = batchRun N sep fuel2 first? rest := by
  intro fuel
  induction fuel with
  | zero => intro fuel2 first? rest h; omega
  | succ f ih =>
    intro fuel2 first? rest h h2
    cases fuel2 with
    | zero => omega
    | succ f2 =>
      simp only [batchRun]
      cases hnb : batchNext N sep first? rest with
      | none => rfl
      | some t =>
        obtain ⟨g, st, r⟩ := t
        have hm := batchNext_measure N sep first? rest g st r hnb
        show g :: batchRun N sep f st r = g :: batchRun N sep f2 st r
        rw [ih f2 st r (by omega) (by omega)]

/-- The fuel in `batchFrom` never runs out: the model satisfies the
defining recursion of the `Batch` iterator. -/
theorem batchFrom_eq (N : Nat) (sep : String) (first? : Option String)
    (rest : List String) :
    batchFrom N sep first? rest =
      match batchNext N sep first? rest with
      | none => []
      | some (g, st, r) => g :: batchFrom N sep st r := by
  unfold batchFrom
  simp only [batchRun]
  cases hnb : batchNext N sep first? rest with
  | none => rfl
  | some t =>
    obtain ⟨g, st, r⟩ := t
    have hm := batchNext_measure N sep first? rest g st r hnb
    show g :: batchRun N sep (optCount first? + rest.length) st r =
      g :: batchFrom N sep st r
    unfold batchFrom
    rw [batchRun_fuel N sep (optCount first? + rest.length)
      (optCount st + r.length + 1) st r (by omega) (by omega)]

/-- Claim C5, evaluated at the failing input (`L = ["abc", ""]`, `s = ";"`,
`N = 3`, so `L` is non-empty and `N ≥ 2`): the batcher emits the single
batch `"abc"`; the trailing empty command is stashed, re-read as the first
item of the next batch, and then dropped by the `!acc.is_empty()` guard, so
the joined output `"abc"` differs from `join(L, ";") = "abc;"`.  The repo's
own quickcheck property `concat_invariant` (src/batch.rs) asserts equality
for every input with `arg_max ≥ 2`, so the code contradicts its own test at
this input. -/
theorem c5_concat_invariant_code_bug :
    batchStrings 3 ";" ["abc", ""] = ["abc"] ∧
    joinSep ";" (batchStrings 3 ";" ["abc", ""]) = "abc" ∧
    joinSep ";" ["abc", ""] = "abc;" ∧
    joinSep ";" (batchStrings 3 ";" ["abc", ""]) ≠ joinSep ";" ["abc", ""] := by
  decide

theorem joinSep_append_single (sep : String) :
    ∀ (g : List String), g ≠ [] → ∀ i,
      joinSep sep (g ++ [i]) = joinSep sep g ++ sep ++ i := by
  intro g
  induction g with
  | nil => intro h; exact absurd rfl h
  | cons x ys ih =>
    intro _ i
    cases ys with
    | nil => rfl
    | cons y ys2 =>
      have hih : joinSep sep (y :: (ys2 ++ [i])) =
          joinSep sep (y :: ys2) ++ sep ++ i := ih (by simp) i
      show x ++ sep ++ joinSep sep (y :: (ys2 ++ [i])) =
        (x ++ sep ++ joinSep sep (y :: ys2)) ++ sep ++ i
      rw [hih]
      simp [String.append_assoc]

theorem strLen_append (a b : String) :
    strLen (a ++ b) = strLen a + strLen b := by
  unfold strLen
  have : (a ++ b).toList = a.toList ++ b.toList := rfl
  rw [this, List.map_append, List.sum_append]

theorem goBatch_bound (N : Nat) (sep : String) :
    ∀ (rest group g : List String) (st : Option String) (r : List String),
      group ≠ [] → goBatch N sep group rest = some (g, st, r) →
      g = group ∨ strLen (joinSep sep g) < N + strLen sep := by
  intro rest
  induction rest with
  | nil =>
    intro group g st r _ h
    simp only [goBatch] at h
    split at h
    · exact Option.noConfusion h
    · cases h
      exact Or.inl rfl
  | cons item xs ih =>
    intro group g st r hne h
    simp only [goBatch] at h
    split at h
    · cases h
      exact Or.inl rfl
    · rename_i hlt
      rcases ih (group ++ [item]) g st r (by simp) h with h2 | h2
      · right
        rw [h2, joinSep_append_single sep group hne item, strLen_append,
          strLen_append]
        omega
      · exact Or.inr h2

theorem batchNext_bound (N : Nat) (sep : String) (first? : Option String)
    (rest g : List String) (st : Option String) (r : List String)
    (h : batchNext N sep first? rest = some (g, st, r)) :
    g.length = 1 ∨ strLen (joinSep sep g) < N + strLen sep := by
  simp only [batchNext] at h
  split at h
  · obtain ⟨rfl, rfl, rfl⟩ :
        [(takeFirst first? rest).1] = g ∧ none = st ∧ (takeFirst first? rest).2 = r := by
      simpa using h
    exact Or.inl rfl
  · rcases goBatch_bound N sep _ _ g st r (by simp) h with h2 | h2
    · rw [h2]
      exact Or.inl rfl
    · exact Or.inr h2

theorem batchRun_bound (N : Nat) (sep : String) :
    ∀ (fuel : Nat) (first? : Option String) (rest : List String)
      (g : List String), g ∈ batchRun N sep fuel first? rest →
      1 < g.length → strLen (joinSep sep g) < N + strLen sep := by
  intro fuel
  induction fuel with
  | zero => intro _ _ g hg; simp [batchRun] at hg
  | succ f ih =>
    intro first? rest g hg h2
    simp only [batchRun] at hg
    cases hnb : batchNext N sep first? rest with
    | none => rw [hnb] at hg; simp at hg
    | some t =>
      obtain ⟨g0, st, r⟩ := t
      rw [hnb] at hg
      rcases List.mem_cons.mp hg with rfl | hg2
      · rcases batchNext_bound N sep first? rest g st r hnb with h1 | h1
        · omega
        · exact h1
      · exact ih st r g hg2 h2

/-- Claim C6, counterexample: with `L = ["a", "b"]`, `sep = ";"`, `N = 3`
the batcher emits one batch built from two commands whose length is `3`,
which is not strictly less than `N = 3` (the repo's own unit test
`small_batch0` expects exactly this batch).  The separator's length is not
counted by the accumulation guard. -/
theorem c6_length_counterexample :
    batchGroups 3 ";" ["a", "b"] = [["a", "b"]] ∧
    joinSep ";" ["a", "b"] = "a;b" ∧
    strLen "a;b" = 3 ∧ ¬(strLen "a;b" < 3) := by
  decide

/-- Claim C6, amended: every batch built from more than one input command
has length strictly less than `N + |sep|` (the guard admits an item when
`|acc| + |item| < N` and then appends `sep` as well, so the bound gains the
separator's length; with the empty separator the claimed `< N` holds). -/
theorem c6_multibatch_bound (N : Nat) (sep : String) (cs : List String)
    (g : List String) (hg : g ∈ batchGroups N sep cs) (h2 : 1 < g.length) :
    strLen (joinSep sep g) < N + strLen sep :=
  batchRun_bound N sep (optCount (none : Option String) + cs.length + 1)
    none cs g hg h2

/-- Witness for `c6_multibatch_bound` at a concrete run. -/
theorem c6_multibatch_bound_witness :
    strLen (joinSep ";" ["ab", "cd"]) < 10 + strLen ";" :=
  c6_multibatch_bound 10 ";" ["ab", "cd"] ["ab", "cd"] (by decide) (by decide)

/-! ## Claim C7 -/

/-- Claim C7, counterexample: a restart event carrying one active service
emits one `Add` operation, not an empty `Ops` list — `Event::Restarted`
carries the full object list in this source and re-seeds `State` itself. -/
theorem c7_restart_counterexample :
    (Resource.service svcC1a).is_active = true ∧
    opsFromEvent some (KEvent.restarted [Resource.service svcC1a]) =
      [Op.resourceAdd (Resource.service svcC1a)] := by
  decide

theorem applyAdds_eq (l : List Resource) :
    ∀ acc : List Resource,
      List.foldl (fun st op => Op.applyOp op st) (⟨acc⟩ : State)
          (l.map Op.resourceAdd) =
        ⟨List.foldl (fun acc2 x => insertBy cmpResource x acc2) acc l⟩ := by
  induction l with
  | nil => intro acc; rfl
  | cons r rs ih =>
    intro acc
    simp only [List.map_cons, List.foldl_cons]
    exact ih (insertBy cmpResource r acc)

/-- Claim C7, amended: a restart event emits one `Add(r)` per carried object
that parses to an active resource (and no other operations); applying those
ops to the empty state seeds it with exactly the active parsed resources.
A restart carrying no active parseable objects emits nothing. -/
theorem c7_restart_reseeds {C : Type} (tryFrom : C → Option Resource)
    (objs : List C) :
    opsFromEvent tryFrom (KEvent.restarted objs) =
      ((objs.filterMap tryFrom).filter Resource.is_active).map Op.resourceAdd ∧
    applyOps (opsFromEvent tryFrom (KEvent.restarted objs)) State.empty =
      ⟨collectBy cmpResource ((objs.filterMap tryFrom).filter Resource.is_active)⟩ := by
  refine ⟨rfl, ?_⟩
  unfold applyOps collectBy State.empty opsFromEvent
  exact applyAdds_eq ((objs.filterMap tryFrom).filter Resource.is_active) []

/-! ## Claim C8 -/

theorem splitChars_ne_nil (c : Char) : ∀ cs : List Char, splitChars c cs ≠ [] := by
  intro cs
  induction cs with
  | nil => simp [splitChars]
  | cons x xs ih =>
    simp only [splitChars]
    split
    · simp
    · cases h : splitChars c xs with
      | nil => simp
      | cons hd tl => simp

theorem strSplit_ne_nil (s : String) (c : Char) : strSplit s c ≠ [] := by
  unfold strSplit
  intro h
  exact splitChars_ne_nil c s.toList (List.map_eq_nil_iff.mp h)

/-- The code's per-entry parser succeeds exactly on entries of the amended
grammar. -/
theorem parsePortSpecEntry_isSome (x : String) :
    (parsePortSpecEntry x).isSome = entryWellFormed x := by
  rcases hsp : strSplit x ':' with _ | ⟨a, _ | ⟨b, _ | ⟨c, _ | ⟨d, rest4⟩⟩⟩⟩
  · simp [parsePortSpecEntry, entryWellFormed, hsp]
  · simp [parsePortSpecEntry, entryWellFormed, hsp]
  · simp only [parsePortSpecEntry, entryWellFormed, hsp]
    cases parseU16 a <;> cases parseU16 b <;> simp
  · simp only [parsePortSpecEntry, entryWellFormed, hsp]
    cases parseU16 a <;> cases parseU16 b <;> simp
  · simp [parsePortSpecEntry, entryWellFormed, hsp]

theorem filterMap_id_length {α : Type} :
    ∀ l : List (Option α), (∀ x ∈ l, x.isSome = true) →
      (l.filterMap id).length = l.length := by
  intro l
  induction l with
  | nil => intro _; rfl
  | cons x xs ih =>
    intro h
    cases hx : x with
    | none =>
      have := h x (List.mem_cons_self x xs)
      rw [hx] at this
      simp at this
    | some a =>
      simp only [List.filterMap_cons, id, List.length_cons]
      rw [ih (fun y hy => h y (List.mem_cons_of_mem x hy))]

/-- Claim C8, counterexample: the entry `"1:2:xyz"` is outside the claimed
grammar (its proto field is neither omitted nor `tcp` nor `udp`), yet
parsing the one-entry list succeeds (the code treats any third field other
than `"udp"` as TCP). -/
theorem c8_grammar_counterexample :
    strSplit "1:2:xyz" ',' = ["1:2:xyz"] ∧
    specEntryGrammar "1:2:xyz" = false ∧
    externalPortsFromStr "1:2:xyz" = some ⟨[⟨1, 2, .tcp⟩]⟩ := by
  decide

def portCount : Option ExternalPorts → Nat
  | none => 0
  | some ep => ep.specs.length

/-- Claim C8, amended: parsing succeeds, with one `PortSpec` per
comma-separated entry, exactly when every entry has 2 or 3 colon-separated
fields whose first two parse as `u16` (the third field is unconstrained:
`udp` selects UDP, anything else TCP); if any single element is malformed,
parsing of the entire list returns an error and yields no ports. -/
theorem c8_grammar_characterization (s : String) :
    (externalPortsFromStr s).isSome = (strSplit s ',').all entryWellFormed ∧
    portCount (externalPortsFromStr s) =
      (if (strSplit s ',').all entryWellFormed then (strSplit s ',').length
        else 0) := by
  have hne : strSplit s ',' ≠ [] := strSplit_ne_nil s ','
  unfold externalPortsFromStr
  cases hE : strSplit s ',' with
  | nil => exact absurd hE hne
  | cons e es =>
    by_cases hall : ((e :: es).all entryWellFormed) = true
    · have hsome : ∀ p ∈ (e :: es).map parsePortSpecEntry, p.isSome = true := by
        intro p hp
        rw [List.mem_map] at hp
        obtain ⟨x, hx, rfl⟩ := hp
        rw [parsePortSpecEntry_isSome]
        exact List.all_eq_true.mp hall x hx
      have hany : ((e :: es).map parsePortSpecEntry).any (fun p => p.isNone) = false := by
        rw [List.any_eq_false]
        intro p hp
        have := hsome p hp
        cases p
        · simp at this
        · simp
      simp only [List.map_cons] at hany
      simp only [List.map_cons, List.isEmpty_cons, hany, Bool.false_eq_true,
        if_false, Option.isSome_some, portCount]
      constructor
      · rw [hall]
      · rw [if_pos hall]
        have hfl := filterMap_id_length
          (parsePortSpecEntry e :: es.map parsePortSpecEntry)
          (by simpa using hsome)
        rw [hfl]
        simp
    · have hex : ∃ x ∈ e :: es, ¬(entryWellFormed x = true) := by
        by_contra hno
        push_neg at hno
        exact hall (List.all_eq_true.mpr hno)
      obtain ⟨x, hx, hxf⟩ := hex
      have hpn : (parsePortSpecEntry x).isNone = true := by
        have h2 : (parsePortSpecEntry x).isSome = false := by
          rw [parsePortSpecEntry_isSome]
          exact Bool.not_eq_true _ ▸ hxf
        cases hh : parsePortSpecEntry x
        · rfl
        · rw [hh] at h2
          simp at h2
      have hany : ((e :: es).map parsePortSpecEntry).any (fun p => p.isNone) = true :=
        List.any_eq_true.mpr ⟨parsePortSpecEntry x, List.mem_map_of_mem _ hx, hpn⟩
      have hallf : ((e :: es).all entryWellFormed) = false :=
        Bool.not_eq_true _ ▸ hall
      simp only [List.map_cons] at hany
      simp only [List.map_cons, List.isEmpty_cons, hany, Bool.false_eq_true,
        if_false, if_true, Option.isSome_none, portCount, hallf]
      simp

/-! ## Claim C10 -/

/-- Claim C10: in `IptablesBackend::apply_rules`, a rule whose full id
(config-hash prefix plus rule hash) occurs as a substring of the most
recently read live rule state contributes no iptables command (removing all
its copies from the input changes nothing), and if every rule's id is
already reflected in the live state — as after a second invocation with the
same rules — no shell command is issued at all, batching or not. -/
theorem c10_apply_skips_live_rules :
    (∀ (serviceIdFn ruleHashFn : IptRule → String) (config_hash : String)
        (local_ip : Option String) (rule_state : String) (rules : List IptRule)
        (r : IptRule), r ∈ rules →
        strContains rule_state (iptRuleId ruleHashFn r config_hash) = true →
        iptApplyCommands serviceIdFn ruleHashFn config_hash local_ip rule_state
            rules =
          iptApplyCommands serviceIdFn ruleHashFn config_hash local_ip rule_state
            (rules.filter (fun x => !(x == r)))) ∧
    (∀ (serviceIdFn ruleHashFn : IptRule → String) (config_hash : String)
        (local_ip : Option String) (batch_commands : Bool) (batch_size : Nat)
        (rule_state : String) (rules : List IptRule),
        (∀ r ∈ rules,
          strContains rule_state (iptRuleId ruleHashFn r config_hash) = true) →
        iptApplyExec serviceIdFn ruleHashFn config_hash local_ip batch_commands
          batch_size rule_state rules = []) := by
  constructor
  · intro sIdF rhF ch lip st rules r hr hcont
    have hfe : rules.filter
          (fun rule => !(strContains st (iptRuleId rhF rule ch))) =
        (rules.filter (fun x => !(x == r))).filter
          (fun rule => !(strContains st (iptRuleId rhF rule ch))) := by
      rw [List.filter_filter]
      apply List.filter_congr
      intro x hx
      by_cases hc : strContains st (iptRuleId rhF x ch) = true
      · simp [hc]
      · have hxr : x ≠ r := fun he => hc (he ▸ hcont)
        simp [hc, hxr]
    unfold iptApplyCommands
    rw [← hfe]
  · intro sIdF rhF ch lip bc bs st rules hall
    unfold iptApplyExec iptApplyCommands
    have hfe : rules.filter
        (fun rule => !(strContains st (iptRuleId rhF rule ch))) = [] := by
      rw [List.filter_eq_nil_iff]
      intro a ha
      simp [hall a ha]
    rw [hfe]
    show runCommandsExec bc bs [] = []
    unfold runCommandsExec
    split
    · rfl
    · rfl

/-- Witness for `c10_apply_skips_live_rules`: a second application of a rule
whose id is present in the live state issues no command. -/
theorem c10_apply_skips_live_rules_witness :
    iptApplyExec (fun _ => "sid") (fun _ => "RH") "CH" none true 100
      "xx CH::RH yy"
      [⟨0, ⟨"svc", "ns", [], none⟩, ⟨"n", "1.2.3.4", true⟩, ⟨"eth0", false⟩⟩] =
      [] :=
  c10_apply_skips_live_rules.2 (fun _ => "sid") (fun _ => "RH") "CH" none true
    100 "xx CH::RH yy"
    [⟨0, ⟨"svc", "ns", [], none⟩, ⟨"n", "1.2.3.4", true⟩, ⟨"eth0", false⟩⟩]
    (by decide)

end Epok

